import Mathlib

/-!
Shallow embedding of the mnemo spaced-repetition reviewer
(src/card.rs, src/deck.rs, src/suite.rs).

Modelling conventions:
* Rust `f64` factors are modelled as `Rat`.  Every operation the scheduler
  performs on factors (multiply / divide by 2, `max 1.0`, comparisons with
  0.0 and the `MAX_DAYS` ceiling, `* 86400.0` followed by `as i64`) is exact
  on rationals, so the model is faithful on all values those operations
  produce.
* Rust `i64` timestamps are `Int`; `usize` ids and tick counts are `Nat`
  (`self.ticks -= 1` is guarded by the documented precondition
  `ticks >= 1`, so `Nat` subtraction agrees with the source).
* `chrono::Local` calendar arithmetic is modelled with a fixed zero UTC
  offset: the date of a timestamp `t` is the floor-division day number
  `t / 86400` (Lean's `Int` `/`/`%` are Euclidean division, which agrees
  with floor division for the positive divisors 86400 and 3600), and
  `now.with_hour(0)` (which zeroes the hour but keeps minute and second)
  is `t - 3600 * ((t % 86400) / 3600)`.
* Randomness (`rand::random::<f64>()`) is passed in explicitly as a `rand`
  argument, used exactly where the source samples it.
-/

/-- Rust `const INIT_TICKS: usize = 2;` (src/card.rs). -/
def INIT_TICKS : Nat := 2

/-- Rust `const MAX_DAYS: f64 = 60.0;` (src/deck.rs). -/
def MAX_DAYS : Rat := 60

/-- Rust `pub struct Status` (src/card.rs): per-card review state. -/
structure Status where
  id : Nat
  timestamp : Int
  factor : Rat
  ticks : Nat
  deriving Repr, DecidableEq

/-- Day number (local date) of a unix timestamp: models
`Local.timestamp(t, 0).date()` with a fixed zero offset. -/
def dateOf (t : Int) : Int := t / 86400

/-- Model of `now.with_hour(0).timestamp()`: zero the hour field, keeping the
minute/second remainder. -/
def withHour0 (t : Int) : Int := t - 3600 * ((t % 86400) / 3600)

/-- Rust `as i64` cast of an `f64`: truncation toward zero. -/
def f64toI64 (q : Rat) : Int := if 0 ≤ q then ⌊q⌋ else ⌈q⌉

/-- Rust `Status::due_date` (src/card.rs): the date of the stored timestamp. -/
def Status.due_date (s : Status) : Int := dateOf s.timestamp

/-- Rust `Status::is_new` (src/card.rs): `self.factor == 0.0`. -/
def Status.is_new (s : Status) : Bool := s.factor == 0

/-- Rust `Status::is_due` (src/card.rs):
`self.ticks > 0 && self.due_date() <= Local::today()`; `today` is the
current day number. -/
def Status.is_due (s : Status) (today : Int) : Bool :=
  decide (0 < s.ticks) && decide (s.due_date ≤ today)

/-- Rust `Status::update` (src/card.rs, lines 61-87).  `now` is the current unix
timestamp and `rand` the value `rand::random::<f64>()` would return.
Returns the updated state together with the returned `self.ticks`. -/
def Status.update (s : Status) (correct randomize : Bool) (now : Int)
    (rand : Rat) : Status × Nat :=
  let s1 :=
    if !correct && s.is_new then { s with ticks := INIT_TICKS }
    else { s with ticks := s.ticks - 1 }
  if s1.ticks == 0 then
    let f1 := if correct then s1.factor * 2 else s1.factor / 2
    let f2 := max f1 1
    let f3 := if randomize then f2 * (1 + (2 / 10 : Rat) * rand) else f2
    let t1 := if dateOf s1.timestamp < dateOf now then withHour0 now
              else s1.timestamp
    let t2 := t1 + f64toI64 (86400 * f3)
    ({ s1 with factor := f3, timestamp := t2 }, 0)
  else
    (s1, s1.ticks)

/-! ### Deck model (src/deck.rs)

A `Deck` is modelled by the list of its card-map keys and its status map
(a partial function, standing for the `HashMap<usize, Status>`).  Rust's
`Vec::sort_by_key` / `sort` (a stable sort) is modelled by the stable
`List.insertionSort`. -/

structure DeckModel where
  cards : List Nat
  status : Nat → Option Status

/-- The sort key `|id| self.status[id].timestamp` used by `get_due` /
`get_done`.  (The Rust indexing panics when the id has no status; both
callers filter on `status.get(id)` being `Some` first, so the `none`
branch is unreachable there.) -/
def statusKey (d : DeckModel) (id : Nat) : Int :=
  match d.status id with
  | some st => st.timestamp
  | none => 0

/-- Rust `Deck::get_due` (src/deck.rs, lines 240-254). -/
def DeckModel.get_due (d : DeckModel) (today : Int) : List Nat :=
  let old := d.cards.filter fun id =>
    match d.status id with
    | some st => st.is_due today && !st.is_new && decide (st.factor < MAX_DAYS)
    | none => false
  List.insertionSort (fun a b => statusKey d a ≤ statusKey d b) old

/-- Rust `Deck::get_done` (src/deck.rs, lines 256-270). -/
def DeckModel.get_done (d : DeckModel) : List Nat :=
  let done := d.cards.filter fun id =>
    match d.status id with
    | some st => decide (MAX_DAYS ≤ st.factor)
    | none => false
  List.insertionSort (fun a b => statusKey d a ≤ statusKey d b) done

/-- Rust `Deck::get_new` (src/deck.rs, lines 272-286). -/
def DeckModel.get_new (d : DeckModel) : List Nat :=
  let new := d.cards.filter fun id =>
    match d.status id with
    | some st => st.is_new
    | none => true
  List.insertionSort (fun a b => a ≤ b) new

/-! ### Log persistence (src/deck.rs `save_log`, src/card.rs `Status::from_str`)

`save_log` writes one line `format!("{},{},{:.2}", id, timestamp, factor)`
per deck id that has a status.  The string layer is modelled at the level
of the parsed triple: writing `{:.2}` and re-parsing the decimal yields the
factor rounded to the nearest multiple of 1/100 (ties to even, Rust's
float-formatting rounding); id and timestamp round-trip exactly. -/

/-- Effect of formatting a factor with `{:.2}` and parsing it back:
round to the nearest multiple of 1/100, ties to even.  Computed on the
numerator and denominator: `n` is `⌊q * 100⌋` and `rem / b` the fractional
part left over, compared against 1/2 by cross-multiplication. -/
def round2 (q : Rat) : Rat :=
  let a : Int := q.num * 100
  let b : Int := (q.den : Int)
  let n : Int := a.fdiv b
  let rem : Int := a - n * b
  (if 2 * rem < b then n
   else if b < 2 * rem then n + 1
   else if n % 2 = 0 then n else n + 1) / 100

/-- One line written by `Deck::save_log` for a status, as its parsed
`(id, timestamp, factor)` triple. -/
def saveLine (st : Status) : Nat × Int × Rat :=
  (st.id, st.timestamp, round2 st.factor)

/-- Rust `Deck::save_log` (src/deck.rs, lines 395-414): for each id in
`self.ids`, if a status exists, emit its line. -/
def save_log (ids : List Nat) (status : Nat → Option Status) :
    List (Nat × Int × Rat) :=
  ids.filterMap fun id => (status id).map saveLine

/-- Rust `Status::from_str` (src/card.rs, lines 138-171) applied to a written
line: rebuild the status, deriving `ticks` as
`if factor != 0.0 { 1 } else { INIT_TICKS }`. -/
def statusFromLine (line : Nat × Int × Rat) : Status :=
  { id := line.1
    timestamp := line.2.1
    factor := line.2.2
    ticks := if line.2.2 ≠ 0 then 1 else INIT_TICKS }

/-- Reloading a saved log: parse every line (the load loop in
`Deck::read_from_file`, keyed by id). -/
def reload (lines : List (Nat × Int × Rat)) : List Status :=
  lines.map statusFromLine

/-! ### Suite merge (src/suite.rs `Suite::get_old_or_new`, lines 93-136)

The per-deck id lists produced by `get_fn` (and, when `randomize` is set,
shuffled) are taken as the input `decks`; `randomize` affects nothing else
in the source, so it does not appear below.  `Vec::pop` removes the last
element.  The `while` loop is modelled with explicit fuel, since — as
proved below — it does not terminate on all inputs; `none` means the fuel
ran out, i.e. the state keeps stepping. -/

/-- Rust `Vec::pop`: remove and return the last element. -/
def popVec (l : List Nat) : Option (Nat × List Nat) :=
  match l.getLast? with
  | none => none
  | some c => some (c, l.dropLast)

/-- The body of one `for` iteration before the `max` check:
`if let Some(card) = cards.pop() { ret.push((deck_index, card)); }`. -/
def roundStep (i : Nat) (d : List Nat) (ret : List (Nat × Nat)) :
    List Nat × List (Nat × Nat) :=
  match popVec d with
  | none => (d, ret)
  | some (c, d') => (d', ret ++ [(i, c)])

/-- One pass of the inner `for (deck_index, cards) in decks.iter_mut().enumerate()`
loop: pop one card per deck, appending `(deck_index, card)` to `ret`,
breaking out of the `for` as soon as `ret.len() >= max`.  Returns the
updated deck lists and `ret`. -/
def mergeRound (max : Option Nat) :
    Nat → List (List Nat) → List (Nat × Nat) →
    List (List Nat) × List (Nat × Nat)
  | _, [], ret => ([], ret)
  | i, d :: ds, ret =>
    let step := roundStep i d ret
    match max with
    | some m =>
      if m ≤ step.2.length then (step.1 :: ds, step.2)
      else
        let rest := mergeRound max (i + 1) ds step.2
        (step.1 :: rest.1, rest.2)
    | none =>
      let rest := mergeRound max (i + 1) ds step.2
      (step.1 :: rest.1, rest.2)

/-- The `while decks.iter().any(|deck| !deck.is_empty())` loop, with fuel. -/
def mergeLoop : Nat → Option Nat → List (List Nat) → List (Nat × Nat) →
    Option (List (Nat × Nat))
  | 0, _, _, _ => none
  | fuel + 1, max, decks, ret =>
    if decks.any fun d => !d.isEmpty then
      let p := mergeRound max 0 decks ret
      mergeLoop fuel max p.1 p.2
    else
      some ret

/-- Rust `Suite::get_old_or_new` on the already-extracted per-deck id lists:
single-deck fast path, otherwise reverse each list and run the round-robin
`while` loop. -/
def get_old_or_new (decks : List (List Nat)) (max : Option Nat)
    (fuel : Nat) : Option (List (Nat × Nat)) :=
  match decks with
  | [d] => some ((d.take (max.getD d.length)).map fun c => (0, c))
  | _ => mergeLoop fuel max (decks.map List.reverse) []

/-! ### Helper lemmas -/

/-- Zeroing the hour field of a timestamp does not change its date. -/
theorem dateOf_withHour0 (t : Int) : dateOf (withHour0 t) = dateOf t := by
  unfold dateOf withHour0
  omega

/-- Membership in `get_due`: exactly the card-map keys whose status exists,
has positive ticks, is due today or earlier, is not new, and is below the
graduation ceiling. -/
theorem mem_get_due (d : DeckModel) (today : Int) (id : Nat) :
    id ∈ d.get_due today ↔
      id ∈ d.cards ∧ ∃ st, d.status id = some st ∧
        0 < st.ticks ∧ st.due_date ≤ today ∧ st.factor ≠ 0 ∧
        st.factor < MAX_DAYS := by
  unfold DeckModel.get_due
  rw [List.mem_insertionSort, List.mem_filter]
  cases h : d.status id with
  | none => simp [h]
  | some st =>
    simp [h, Status.is_due, Status.is_new, and_assoc]

/-- Membership in `get_done`: exactly the card-map keys whose status exists
with factor at or above the ceiling. -/
theorem mem_get_done (d : DeckModel) (id : Nat) :
    id ∈ d.get_done ↔
      id ∈ d.cards ∧ ∃ st, d.status id = some st ∧ MAX_DAYS ≤ st.factor := by
  unfold DeckModel.get_done
  rw [List.mem_insertionSort, List.mem_filter]
  cases h : d.status id with
  | none => simp [h]
  | some st => simp [h]

/-- Membership in `get_new`: exactly the card-map keys with no status or a
zero factor. -/
theorem mem_get_new (d : DeckModel) (id : Nat) :
    id ∈ d.get_new ↔
      id ∈ d.cards ∧
        (d.status id = none ∨ ∃ st, d.status id = some st ∧ st.factor = 0) := by
  unfold DeckModel.get_new
  rw [List.mem_insertionSort, List.mem_filter]
  cases h : d.status id with
  | none => simp [h]
  | some st => simp [h, Status.is_new]

/-- Once `ret.len() >= max` holds, deck 0 is empty, and some later deck is
non-empty, the merge `while` loop steps to itself forever: the `break` only
exits the inner `for`, deck 0 yields no pop, and the immediate re-break
never reaches the decks that would let the loop make progress. -/
theorem mergeLoop_stuck (fuel m : Nat) (ds : List (List Nat))
    (ret : List (Nat × Nat)) (hm : m ≤ ret.length)
    (hne : (([] : List Nat) :: ds).any (fun d => !d.isEmpty) = true) :
    mergeLoop fuel (some m) ([] :: ds) ret = none := by
  induction fuel with
  | zero => rfl
  | succ n ih =>
    have hstep : roundStep 0 [] ret = ([], ret) := rfl
    have hround : mergeRound (some m) 0 ([] :: ds) ret = ([] :: ds, ret) := by
      unfold mergeRound
      simp [hstep, hm]
    unfold mergeLoop
    rw [hne]
    simp only [if_true, hround]
    exact ih

/-! ### Claim theorems -/

/-- Claim C1: the spec says that for at least two per-deck lists, `max = 0`
yields an empty sequence and the returned sequence never exceeds `max`.
The code violates this: on decks `[[1], [2]]` with `max = 0` the `break`
only exits the inner `for`, one card is still pushed, and the `while` loop
then spins forever on the non-empty second deck — the call never returns,
for any amount of fuel. -/
theorem merge_max_zero_diverges (fuel : Nat) :
    get_old_or_new [[1], [2]] (some 0) fuel = none := by
  match fuel with
  | 0 => rfl
  | n + 1 =>
    have h1 : get_old_or_new [[1], [2]] (some 0) (n + 1)
        = mergeLoop n (some 0) [[], [2]] [(0, 1)] := rfl
    rw [h1]
    exact mergeLoop_stuck n 0 [[2]] [(0, 1)] (by decide) (by decide)

/-- Claim C2: the spec says the round-robin draw terminates on every input.
The code violates this: on decks `[[1, 2, 3], [4, 5]]` with `max = 2`, once
`ret.len() >= max` the `for`-`break` re-fires before deck 1 is ever reached
again, deck 0 is drained past the cap, and the `while` loop then never
terminates — the call returns nothing for any amount of fuel. -/
theorem merge_with_cap_diverges (fuel : Nat) :
    get_old_or_new [[1, 2, 3], [4, 5]] (some 2) fuel = none := by
  match fuel with
  | 0 => rfl
  | 1 => rfl
  | 2 => rfl
  | n + 3 =>
    have h1 : get_old_or_new [[1, 2, 3], [4, 5]] (some 2) (n + 3)
        = mergeLoop n (some 2) [[], [5]] [(0, 1), (1, 4), (0, 2), (0, 3)] := rfl
    rw [h1]
    exact mergeLoop_stuck n 2 [[5]] [(0, 1), (1, 4), (0, 2), (0, 3)]
      (by decide) (by decide)

/-- Claim C7: with two decks `[a1, a2, a3]` and `[b1, b2]`, no cap and no
shuffling, the merge returns exactly
`[(0,a1), (1,b1), (0,a2), (1,b2), (0,a3)]`: round-robin until the shorter
deck is exhausted, then the remainder of the longer deck. -/
theorem merge_interleaves (a1 a2 a3 b1 b2 : Nat) (fuel : Nat)
    (hfuel : 4 ≤ fuel) :
    get_old_or_new [[a1, a2, a3], [b1, b2]] none fuel
      = some [(0, a1), (1, b1), (0, a2), (1, b2), (0, a3)] := by
  obtain ⟨n, rfl⟩ : ∃ n, fuel = n + 4 := ⟨fuel - 4, by omega⟩
  rfl

/-- Witness for C7 at the concrete decks `[[1, 2, 3], [4, 5]]`. -/
theorem merge_interleaves_witness :
    4 ≤ 4 ∧ get_old_or_new [[1, 2, 3], [4, 5]] none 4
      = some [(0, 1), (1, 4), (0, 2), (1, 5), (0, 3)] :=
  ⟨by decide, merge_interleaves 1 2 3 4 5 4 (by decide)⟩

/-- Claim C4: on a new card (`factor == 0`) with at least one tick left, a
wrong answer resets `ticks` to `INIT_TICKS = 2` (not a mere decrement), and
— because the tick cycle does not complete — factor and timestamp are
untouched: the whole update is exactly the tick reset. -/
theorem update_wrong_new_resets (s : Status) (randomize : Bool) (now : Int)
    (rand : Rat) (hnew : s.factor = 0) (_hticks : 1 ≤ s.ticks) :
    s.update false randomize now rand
      = ({ s with ticks := INIT_TICKS }, INIT_TICKS) := by
  simp [Status.update, Status.is_new, hnew, INIT_TICKS]

/-- Witness for C4 on a fresh status. -/
theorem update_wrong_new_resets_witness :
    (⟨7, 100, 0, 2⟩ : Status).factor = 0 ∧ 1 ≤ (⟨7, 100, 0, 2⟩ : Status).ticks ∧
      Status.update ⟨7, 100, 0, 2⟩ false true 5000 (1 / 2)
        = ({ id := 7, timestamp := 100, factor := 0, ticks := INIT_TICKS },
            INIT_TICKS) :=
  ⟨rfl, by decide,
    update_wrong_new_resets ⟨7, 100, 0, 2⟩ true 5000 (1 / 2) rfl (by decide)⟩

/-- Claim C5: whenever a call to `update` (with `randomize = false`, from a
state with at least one tick) completes the tick cycle (returns 0), the new
factor is the old factor doubled on a correct answer or halved on an
incorrect one, clamped below at 1; in particular it is never below 1. -/
theorem update_complete_factor (s : Status) (correct : Bool) (now : Int)
    (rand : Rat) (_hticks : 1 ≤ s.ticks)
    (hdone : (s.update correct false now rand).2 = 0) :
    (s.update correct false now rand).1.factor
      = max (if correct then s.factor * 2 else s.factor / 2) 1 ∧
    1 ≤ (s.update correct false now rand).1.factor := by
  by_cases hb : (!correct && s.is_new) = true
  · exfalso
    simp [Status.update, hb, INIT_TICKS] at hdone
  · by_cases hz : s.ticks - 1 = 0
    · constructor
      · simp [Status.update, hb, hz]
      · simp [Status.update, hb, hz]
    · exfalso
      simp [Status.update, hb, hz] at hdone

/-- Witness for C5: a correct completing answer from factor 3 yields
`max (3 * 2) 1 = 6`. -/
theorem update_complete_factor_witness :
    1 ≤ (⟨1, 0, 3, 1⟩ : Status).ticks ∧
      (Status.update ⟨1, 0, 3, 1⟩ true false 0 0).2 = 0 ∧
      ((Status.update ⟨1, 0, 3, 1⟩ true false 0 0).1.factor
          = max (if true then (3 : Rat) * 2 else (3 : Rat) / 2) 1 ∧
        1 ≤ (Status.update ⟨1, 0, 3, 1⟩ true false 0 0).1.factor) :=
  ⟨by decide, by decide,
    update_complete_factor ⟨1, 0, 3, 1⟩ true 0 0 (by decide) (by decide)⟩

/-- Claim C6: whenever a call to `update` completes the tick cycle, the new
timestamp is obtained from the snap base — `with_hour(0)` of now when the
stored due date is strictly before today, the stored timestamp unchanged
otherwise — by adding the truncated `86400 * factor` seconds (with the
already-updated factor); and the snap base indeed lies on the current day. -/
theorem update_complete_timestamp (s : Status) (correct randomize : Bool)
    (now : Int) (rand : Rat) (_hticks : 1 ≤ s.ticks)
    (hdone : (s.update correct randomize now rand).2 = 0) :
    (s.update correct randomize now rand).1.timestamp
      = (if dateOf s.timestamp < dateOf now then withHour0 now
         else s.timestamp)
        + f64toI64 (86400 * (s.update correct randomize now rand).1.factor) ∧
    dateOf (withHour0 now) = dateOf now := by
  refine ⟨?_, dateOf_withHour0 now⟩
  by_cases hb : (!correct && s.is_new) = true
  · exfalso
    simp [Status.update, hb, INIT_TICKS] at hdone
  · by_cases hz : s.ticks - 1 = 0
    · simp [Status.update, hb, hz]
    · exfalso
      simp [Status.update, hb, hz] at hdone

/-- Witness for C6: an overdue card (due day 0, now day 1) is snapped to
hour 0 of now before the interval is added. -/
theorem update_complete_timestamp_witness :
    1 ≤ (⟨1, 100, 3, 1⟩ : Status).ticks ∧
      (Status.update ⟨1, 100, 3, 1⟩ true false 90000 0).2 = 0 ∧
      ((Status.update ⟨1, 100, 3, 1⟩ true false 90000 0).1.timestamp
          = (if dateOf 100 < dateOf 90000 then withHour0 90000 else 100)
            + f64toI64
                (86400 * (Status.update ⟨1, 100, 3, 1⟩ true false 90000 0).1.factor) ∧
        dateOf (withHour0 90000) = dateOf 90000) :=
  ⟨by decide, by decide,
    update_complete_timestamp ⟨1, 100, 3, 1⟩ true false 90000 0
      (by decide) (by decide)⟩

/-- Claim C9: `update` is deterministic when `randomize = false` — the
random sample is consulted nowhere else, so two calls from equal states
with the same answer and the same current time agree on the whole result,
whatever random values were drawn. -/
theorem update_deterministic (s : Status) (correct : Bool) (now : Int)
    (r1 r2 : Rat) :
    s.update correct false now r1 = s.update correct false now r2 := rfl

/-- Claim C8: `get_due` returns exactly the ids with an existing status
whose `ticks_remaining` is positive, whose due date is today or earlier,
whose factor is nonzero (not new) and strictly below the graduation
ceiling `MAX_DAYS = 60`; it never returns a card at or above the ceiling,
and the result is sorted ascending by the status timestamp. -/
theorem get_due_spec (d : DeckModel) (today : Int) :
    (∀ id, id ∈ d.get_due today ↔
        id ∈ d.cards ∧ ∃ st, d.status id = some st ∧
          0 < st.ticks ∧ st.due_date ≤ today ∧ st.factor ≠ 0 ∧
          st.factor < MAX_DAYS) ∧
    (∀ id st, id ∈ d.get_due today → d.status id = some st →
        st.factor < MAX_DAYS) ∧
    List.Sorted (fun a b => statusKey d a ≤ statusKey d b)
      (d.get_due today) := by
  refine ⟨mem_get_due d today, ?_, ?_⟩
  · intro id st hmem hst
    obtain ⟨-, st', hst', -, -, -, hlt⟩ := (mem_get_due d today id).1 hmem
    rw [hst] at hst'
    cases hst'
    exact hlt
  · haveI : IsTotal Nat fun a b => statusKey d a ≤ statusKey d b :=
      ⟨fun a b => le_total _ _⟩
    haveI : IsTrans Nat fun a b => statusKey d a ≤ statusKey d b :=
      ⟨fun a b c => le_trans⟩
    exact List.sorted_insertionSort _ _

/-- Claim C10: the three deck queries are pairwise disjoint, and each only
ever returns keys of the card map — a log-loaded status whose id has no
card never shows up in any of them. -/
theorem queries_disjoint (d : DeckModel) (today : Int) :
    (∀ id, id ∈ d.get_due today → id ∉ d.get_new) ∧
    (∀ id, id ∈ d.get_due today → id ∉ d.get_done) ∧
    (∀ id, id ∈ d.get_new → id ∉ d.get_done) ∧
    (∀ id, id ∈ d.get_due today → id ∈ d.cards) ∧
    (∀ id, id ∈ d.get_new → id ∈ d.cards) ∧
    (∀ id, id ∈ d.get_done → id ∈ d.cards) := by
  refine ⟨?_, ?_, ?_, ?_, ?_, ?_⟩
  · intro id hdue hnew
    obtain ⟨-, st, hst, -, -, hne, -⟩ := (mem_get_due d today id).1 hdue
    obtain ⟨-, hcase⟩ := (mem_get_new d id).1 hnew
    rcases hcase with h0 | ⟨st', hst', h0⟩
    · rw [hst] at h0
      cases h0
    · rw [hst] at hst'
      cases hst'
      exact hne h0
  · intro id hdue hdone
    obtain ⟨-, st, hst, -, -, -, hlt⟩ := (mem_get_due d today id).1 hdue
    obtain ⟨-, st', hst', hge⟩ := (mem_get_done d id).1 hdone
    rw [hst] at hst'
    cases hst'
    exact absurd hge (not_le.2 hlt)
  · intro id hnew hdone
    obtain ⟨-, st', hst', hge⟩ := (mem_get_done d id).1 hdone
    obtain ⟨-, hcase⟩ := (mem_get_new d id).1 hnew
    rcases hcase with h0 | ⟨st, hst, h0⟩
    · rw [hst'] at h0
      cases h0
    · rw [hst'] at hst
      cases hst
      rw [h0] at hge
      exact absurd hge (by norm_num [MAX_DAYS])
  · exact fun id h => ((mem_get_due d today id).1 h).1
  · exact fun id h => ((mem_get_new d id).1 h).1
  · exact fun id h => ((mem_get_done d id).1 h).1

/-- A status map holding one entry whose factor `1/1000` is not exact at
two decimal places. -/
def statusCex : Nat → Option Status :=
  fun id =>
    if id = 1 then
      some { id := 1, timestamp := 100, factor := 1 / 1000, ticks := 1 }
    else none

/-- Claim C3 counterexample: the round trip is not the identity on
`(id, timestamp, factor)` triples.  The entry `(1, 100, 1/1000)` is written
by `save_log` as `1,100,0.00` (the `{:.2}` format), so reloading yields the
triple `(1, 100, 0)` — and, the factor now being zero, `ticks` comes back
as `INIT_TICKS = 2` instead of 1. -/
theorem save_log_roundtrip_cex :
    statusCex 1
        = some { id := 1, timestamp := 100, factor := 1 / 1000, ticks := 1 } ∧
    reload (save_log [1] statusCex)
        = [{ id := 1, timestamp := 100, factor := 0, ticks := 2 }] ∧
    (1 / 1000 : Rat) ≠ 0 := by
  have hr : round2 (1 / 1000 : Rat) = 0 := by
    have hn : ((1 : Rat) / 1000).num = 1 := by norm_num
    have hd : ((1 : Rat) / 1000).den = 1000 := by norm_num
    simp only [round2, hn, hd]
    norm_num [Int.fdiv]
  have hr' : round2 (1000⁻¹ : Rat) = 0 := by
    rw [← one_div]
    exact hr
  refine ⟨rfl, ?_, by norm_num⟩
  simp [reload, save_log, statusCex, saveLine, statusFromLine, hr, hr',
    INIT_TICKS]

/-- Claim C3 (amended): serializing with `save_log` and reparsing each line
with `Status::from_str` yields exactly one status per deck id that has an
entry (entries keyed outside the deck's id list are dropped), with `id` and
`timestamp` identical, `factor` the original rounded to two decimals —
hence identical `(id, timestamp, factor)` triples whenever every stored
factor is exact at two decimal places, as hypothesised here — and
`ticks_remaining` rederived as 1 for a nonzero reloaded factor and
`INIT_TICKS = 2` otherwise. -/
theorem save_log_roundtrip (ids : List Nat) (status : Nat → Option Status)
    (hround : ∀ id st, id ∈ ids → status id = some st →
        round2 st.factor = st.factor) :
    reload (save_log ids status)
      = ids.filterMap fun id => (status id).map fun st =>
          { id := st.id, timestamp := st.timestamp, factor := st.factor,
            ticks := if st.factor ≠ 0 then 1 else INIT_TICKS } := by
  induction ids with
  | nil => rfl
  | cons i rest ih =>
    have hi : ∀ st, status i = some st → round2 st.factor = st.factor :=
      fun st h => hround i st (List.mem_cons_self i rest) h
    have hrest : ∀ j st, j ∈ rest → status j = some st →
        round2 st.factor = st.factor :=
      fun j st hj => hround j st (List.mem_cons_of_mem i hj)
    cases h : status i with
    | none =>
      simpa [save_log, reload, List.filterMap_cons, h] using ih hrest
    | some st =>
      have hfac := hi st h
      have htail := ih hrest
      simp only [save_log, reload, List.filterMap_cons, h, Option.map_some',
        List.map_cons] at htail ⊢
      rw [htail]
      simp [statusFromLine, saveLine, hfac]

/-- A status map whose single factor `3 = 3.00` is exact at two
decimals. -/
def statusRound : Nat → Option Status :=
  fun id =>
    if id = 1 then
      some { id := 1, timestamp := 50, factor := 3, ticks := 1 }
    else none

/-- Witness for the amended C3 on a factor that is exact at two decimal
places. -/
theorem save_log_roundtrip_witness :
    (∀ id st, id ∈ [1] → statusRound id = some st →
        round2 st.factor = st.factor) ∧
    reload (save_log [1] statusRound)
      = [1].filterMap fun id => (statusRound id).map fun st =>
          { id := st.id, timestamp := st.timestamp, factor := st.factor,
            ticks := if st.factor ≠ 0 then 1 else INIT_TICKS } := by
  have hr : round2 (3 : Rat) = 3 := by
    have hn : (3 : Rat).num = 3 := by norm_num
    have hd : (3 : Rat).den = 1 := by norm_num
    simp only [round2, hn, hd]
    norm_num [Int.fdiv]
  have h : ∀ id st, id ∈ [1] → statusRound id = some st →
      round2 st.factor = st.factor := by
    intro id st hid hst
    rcases List.mem_singleton.1 hid with rfl
    rw [show statusRound 1
        = some { id := 1, timestamp := 50, factor := 3, ticks := 1 }
        from rfl] at hst
    injection hst with h'
    rw [h'.symm]
    exact hr
  exact ⟨h, save_log_roundtrip [1] statusRound h⟩
